import Mathlib

/-!
Verification development for `corpusbuilder/news_crawler.py` (WebArticleCurator).

The Python module is embedded shallowly:

* `Date` models `datetime.date` (proleptic Gregorian calendar); day stepping
  and ordinals follow CPython's `datetime` implementation.
* `Settings` models the settings dictionary read by the crawler.
* `Oracle` models the external collaborators (downloader, extractors): the
  downloader is indexed by a call counter so that behaviours that answer
  differently on repeated calls for one URL are expressible.
* `CrawlState` models the URL classification sets of `NewsArchiveCrawler` and
  `NewsArticleCrawler`, together with bookkeeping (fetched URLs in order,
  converter invocations) used to state the properties.
* Unbounded `while` loops are given fuel; `none` means the loop did not finish
  within the given fuel, `some` means the Python loop terminated.
-/

/-- Proleptic Gregorian calendar date, as Python's `datetime.date`. -/
structure Date where
  year : Nat
  month : Nat
  day : Nat
deriving DecidableEq, Repr

/-- Gregorian leap-year rule, as CPython `datetime._is_leap`. -/
def Date.isLeapYear (y : Nat) : Bool :=
  (y % 4 == 0 && y % 100 != 0) || y % 400 == 0

/-- Days in a month, as CPython `datetime._days_in_month`. -/
def Date.daysInMonth (y m : Nat) : Nat :=
  if m == 2 then (if Date.isLeapYear y then 29 else 28)
  else if m == 4 || m == 6 || m == 9 || m == 11 then 30
  else 31

/-- Python `date + timedelta(days=1)` on a valid date. -/
def Date.nextDay (d : Date) : Date :=
  if d.day < Date.daysInMonth d.year d.month then ⟨d.year, d.month, d.day + 1⟩
  else if d.month < 12 then ⟨d.year, d.month + 1, 1⟩
  else ⟨d.year + 1, 1, 1⟩

/-- Python `date + timedelta(days=n)` on a valid date. -/
def Date.addDays (d : Date) : Nat → Date
  | 0 => d
  | n + 1 => Date.addDays (Date.nextDay d) n

/-- Days in all years strictly before year `y`, as CPython `_days_before_year`. -/
def Date.daysBeforeYear (y : Nat) : Nat :=
  let p := y - 1
  p * 365 + p / 4 - p / 100 + p / 400

/-- Days in the months of year `y` strictly before month `m`,
as CPython `_days_before_month`. -/
def Date.daysBeforeMonth (y : Nat) : Nat → Nat
  | 0 => 0
  | m + 1 => if m == 0 then 0 else Date.daysBeforeMonth y m + Date.daysInMonth y m

/-- Python `date.toordinal()`. -/
def Date.toOrdinal (d : Date) : Nat :=
  Date.daysBeforeYear d.year + Date.daysBeforeMonth d.year d.month + d.day

/-- Python `date` comparison: chronological order, i.e. lexicographic on
`(year, month, day)` for valid dates. -/
def Date.le (a b : Date) : Bool :=
  a.year < b.year ||
    (a.year == b.year && (a.month < b.month || (a.month == b.month && a.day ≤ b.day)))

/-- The settings keys read by `news_crawler.py`. -/
structure Settings where
  archive_page_urls_by_date : Bool
  archive_page_urls_by_id : Bool
  date_from : Date
  date_until : Date
  archive_url_format : String
  go_reverse_in_archive : Bool
  min_pagenum : Nat
  max_pagenum : Option Nat
  next_url_by_regex : Bool
  next_url_by_pagenum : Bool
  same_article_url_threshold : Nat
  create_corpus : Bool
deriving DecidableEq, Repr

/-- Python format spec `{0:0wd}`: decimal digits left-padded with zeros to
width `w`. -/
def padZeros (w n : Nat) : String :=
  String.mk (List.replicate (w - (Nat.repr n).length) '0') ++ Nat.repr n

/-- The scan of Python `str.replace` over the character list: replace each
non-overlapping occurrence of `pat`, left to right.  The fuel is the length of
the scanned list (each step consumes at least one character when `pat` is
nonempty); structural recursion keeps it kernel-evaluable. -/
def replaceCore (pat rep : List Char) : Nat → List Char → List Char
  | 0, s => s
  | fuel + 1, s =>
    match s with
    | [] => []
    | c :: rest =>
      if pat.isPrefixOf s then rep ++ replaceCore pat rep fuel (s.drop pat.length)
      else c :: replaceCore pat rep fuel rest

/-- Python `str.replace s pat rep` for the nonempty patterns the crawler uses
(`#year`, `#month`, `#day`). -/
def pyReplace (s pat rep : String) : String :=
  if pat.data.isEmpty then s
  else String.mk (replaceCore pat.data rep.data s.data.length s.data)

/-- `NewsArchiveCrawler._gen_archive_page_url_from_date`
(news_crawler.py lines 84-93). -/
def gen_archive_page_url_from_date (curr_date : Date) (url_format : String) : String :=
  pyReplace (pyReplace (pyReplace url_format "#year" (padZeros 4 curr_date.year))
    "#month" (padZeros 2 curr_date.month)) "#day" (padZeros 2 curr_date.day)

/-- The date-mode branch of `NewsArchiveCrawler.url_iterator`
(news_crawler.py lines 60-70): one URL per day of
`[date_from, date_until]`, deduplicated as by Python `list(set(...))`, then
sorted (descending when `go_reverse_in_archive`).  Python's `range` over
`(date_until - date_from).days + 1` is empty when that quantity is not
positive, hence the `Int.toNat` clamping. -/
def date_archive_page_urls (st : Settings) : List String :=
  if st.archive_page_urls_by_date then
    let numUrls : Int :=
      (Date.toOrdinal st.date_until : Int) - (Date.toOrdinal st.date_from : Int) + 1
    let generated := (List.range numUrls.toNat).map
      (fun curr_day =>
        gen_archive_page_url_from_date (st.date_from.addDays curr_day) st.archive_url_format)
    if st.go_reverse_in_archive then
      generated.dedup.mergeSort (fun a b => decide (b ≤ a))
    else
      generated.dedup.mergeSort (fun a b => decide (a ≤ b))
  else []

/-- The full archive base-URL list built by `NewsArchiveCrawler.url_iterator`
(news_crawler.py lines 58-74): date mode first, then the id-mode fallback
which appends the bare `archive_url_format` only when the list is empty. -/
def archive_page_urls (st : Settings) : List String :=
  let l := date_archive_page_urls st
  if st.archive_page_urls_by_id && l.length == 0 then l ++ [st.archive_url_format] else l

/-- The base-URL generation phase of `NewsArchiveCrawler.url_iterator`
(news_crawler.py lines 76-78): raises `ValueError` exactly when the list of
archive page URLs is empty. -/
def url_iterator_bases (st : Settings) : Except String (List String) :=
  if (archive_page_urls st).length == 0 then
    Except.error "no archive_page_urls: neither by_date nor by_id produced a URL"
  else Except.ok (archive_page_urls st)

/-- The external collaborators of the crawler.  `fetch` is indexed by a global
call counter, so downloaders whose success or failure varies between calls to
the same URL are expressible; a cache-backed downloader is the special case
that ignores the counter.  The three extractor functions take the raw HTML
(settings are fixed for a run). -/
structure Oracle where
  fetch : Nat → String → Option String
  article_urls_from_page : String → List String
  next_page_url_from_page : String → Option String
  article_date_from_page : String → Option Date

/-- The mutable URL sets of one crawler run, plus observation bookkeeping:
`corpus_urls` records the URLs handed to the converter, `fetched_urls` the
downloader calls in order, `fetch_count` the downloader call counter. -/
structure CrawlState where
  known_article_urls : List String
  good_urls : List String
  problematic_urls : List String
  good_article_urls : List String
  problematic_article_urls : List String
  new_urls : List String
  corpus_urls : List String
  fetched_urls : List String
  fetch_count : Nat
deriving DecidableEq, Repr

/-- The state of a freshly constructed crawler pair: all sets empty except the
pre-loaded `known_article_urls`. -/
def initState (known : List String) : CrawlState :=
  { known_article_urls := known, good_urls := [], problematic_urls := [],
    good_article_urls := [], problematic_article_urls := [], new_urls := [],
    corpus_urls := [], fetched_urls := [], fetch_count := 0 }

/-- One call of `self._downloader.download_url(url)`. -/
def fetchUrl (o : Oracle) (s : CrawlState) (url : String) : CrawlState × Option String :=
  ({ s with fetched_urls := s.fetched_urls ++ [url], fetch_count := s.fetch_count + 1 },
   o.fetch s.fetch_count url)

/-- `NewsArchiveCrawler._extract_next_page_url` (news_crawler.py lines
122-141).  The pagenum overlap uses the embedded known set, which is
duplicate-free by construction, so the filter length is the size of the
Python set intersection. -/
def extract_next_page_url (o : Oracle) (st : Settings) (known_article_urls : List String)
    (archive_page_raw_html archive_page_url_base : String) (article_urls : List String)
    (page_num : Nat) : Option String :=
  if st.next_url_by_regex then
    o.next_page_url_from_page archive_page_raw_html
  else if st.next_url_by_pagenum && decide (0 < article_urls.length) &&
      (decide (known_article_urls = []) ||
        decide (st.same_article_url_threshold <
          (known_article_urls.filter (fun u => u ∈ article_urls)).length)) &&
      (match st.max_pagenum with | none => true | some m => decide (page_num < m)) then
    some (archive_page_url_base ++ Nat.repr page_num)
  else
    none

/-- The admission check for one extracted in-article link
(news_crawler.py lines 223-229): add to `new_urls` iff absent from all five
classification sets. -/
def admit_new (s : CrawlState) (extracted_url : String) : CrawlState :=
  if extracted_url ∉ s.good_article_urls ∧ extracted_url ∉ s.problematic_article_urls ∧
      extracted_url ∉ s.good_urls ∧ extracted_url ∉ s.problematic_urls ∧
      extracted_url ∉ s.known_article_urls then
    { s with new_urls := s.new_urls.insert extracted_url }
  else s

/-- The date filter of `NewsArticleCrawler.process_urls`
(news_crawler.py lines 207-209): date present and inside
`[date_from, date_until]`, both bounds inclusive. -/
def article_date_is_ok (st : Settings) (article_date : Option Date) : Bool :=
  match article_date with
  | none => false
  | some d => Date.le st.date_from d && Date.le d st.date_until

/-- The body of the `for url in it` loop of `NewsArticleCrawler.process_urls`
(news_crawler.py lines 187-229). -/
def process_one_url (o : Oracle) (st : Settings) (s : CrawlState) (url : String) : CrawlState :=
  if url ∈ s.good_article_urls ∨ url ∈ s.problematic_article_urls then s
  else
    match fetchUrl o s url with
    | (s1, none) =>
      { s1 with problematic_article_urls := s1.problematic_article_urls.insert url }
    | (s1, some article_raw_html) =>
      let s2 := { s1 with good_article_urls := s1.good_article_urls.insert url }
      let date_ok := article_date_is_ok st (o.article_date_from_page article_raw_html)
      let s3 :=
        if date_ok && st.create_corpus then
          { s2 with corpus_urls := s2.corpus_urls ++ [url] }
        else s2
      (o.article_urls_from_page article_raw_html).foldl admit_new s3

/-- `NewsArticleCrawler.process_urls` on a materialised URL stream. -/
def process_urls (o : Oracle) (st : Settings) (s : CrawlState) (urls : List String) : CrawlState :=
  urls.foldl (process_one_url o st) s

/-- `NewsArchiveCrawler._gen_article_urls_from_archive_page_url_including_subpages`
(news_crawler.py lines 95-120), standalone (archive crawler used on its own):
returns the final state together with the article URLs yielded, page by page;
`none` means the `while` loop exceeded the fuel. -/
def walk_archive_pages (o : Oracle) (st : Settings) :
    Nat → CrawlState → String → Option String → Nat → Option (CrawlState × List String)
  | _, s, _, none, _ => some (s, [])
  | 0, _, _, some _, _ => none
  | fuel + 1, s, base, some url, page_num =>
    match fetchUrl o s url with
    | (s1, some html) =>
      let article_urls := o.article_urls_from_page html
      let s2 := { s1 with good_urls := s1.good_urls.insert url }
      let next := extract_next_page_url o st s2.known_article_urls html base article_urls page_num
      (walk_archive_pages o st fuel s2 base next (page_num + 1)).map
        (fun r => (r.1, article_urls ++ r.2))
    | (s1, none) =>
      some ({ s1 with problematic_urls := s1.problematic_urls.insert url }, [])

/-- One archive base URL of `url_iterator` consumed lazily by
`NewsArticleCrawler.process_urls`: the next page is fetched only after the
previous page's batch of article URLs has been processed, exactly as the
Python generator interleaves.  Also returns the state after each page is
handled (for stating run invariants). -/
def crawl_base (o : Oracle) (st : Settings) :
    Nat → CrawlState → String → Option String → Nat → Option (CrawlState × List CrawlState)
  | _, s, _, none, _ => some (s, [])
  | 0, _, _, some _, _ => none
  | fuel + 1, s, base, some url, page_num =>
    match fetchUrl o s url with
    | (s1, some html) =>
      let article_urls := o.article_urls_from_page html
      let s2 := { s1 with good_urls := s1.good_urls.insert url }
      let next := extract_next_page_url o st s2.known_article_urls html base article_urls page_num
      let s3 := process_urls o st s2 article_urls
      (crawl_base o st fuel s3 base next (page_num + 1)).map (fun r => (r.1, s3 :: r.2))
    | (s1, none) =>
      let s2 := { s1 with problematic_urls := s1.problematic_urls.insert url }
      some (s2, [s2])

/-- `process_urls(self._archive_downloader.url_iterator())`: all archive base
URLs in order, pages interleaved with article processing. -/
def crawl_bases (o : Oracle) (st : Settings) (fuel : Nat) :
    CrawlState → List String → Option (CrawlState × List CrawlState)
  | s, [] => some (s, [])
  | s, base :: rest =>
    match crawl_base o st fuel s base (some base) st.min_pagenum with
    | none => none
    | some (s1, tr1) =>
      (crawl_bases o st fuel s1 rest).map (fun r => (r.1, tr1 ++ r.2))

/-- The set comprehension at the top of
`NewsArticleCrawler.download_gathered_new_urls` (news_crawler.py lines
237-242): re-filter `new_urls` against the five classification sets. -/
def recheck_new_urls (s : CrawlState) : CrawlState :=
  { s with new_urls := s.new_urls.filter (fun url =>
      decide (url ∉ s.good_article_urls ∧ url ∉ s.problematic_article_urls ∧
        url ∉ s.good_urls ∧ url ∉ s.problematic_urls ∧ url ∉ s.known_article_urls)) }

/-- The `while` loop of `download_gathered_new_urls` (news_crawler.py lines
243-247): snapshot `new_urls`, clear it, hand the snapshot to `process_urls`,
repeat until `new_urls` is empty at the start of an iteration.  Returns the
final state, the batches handed to `process_urls`, and the state at the start
of each iteration that ran. -/
def drain_loop (o : Oracle) (st : Settings) :
    Nat → CrawlState → Option (CrawlState × List (List String) × List CrawlState)
  | 0, s => if s.new_urls.isEmpty then some (s, [], []) else none
  | fuel + 1, s =>
    if s.new_urls.isEmpty then some (s, [], [])
    else
      let batch := s.new_urls
      let s1 := { s with new_urls := [] }
      let s2 := process_urls o st s1 batch
      (drain_loop o st fuel s2).map (fun r => (r.1, batch :: r.2.1, s :: r.2.2))

/-- `NewsArticleCrawler.download_gathered_new_urls` (news_crawler.py lines
235-247): re-filter once, then the drain loop. -/
def download_gathered_new_urls (o : Oracle) (st : Settings) (fuel : Nat) (s : CrawlState) :
    Option (CrawlState × List (List String) × List CrawlState) :=
  drain_loop o st fuel (recheck_new_urls s)

/-- Modelled from the spec: the drain loop as the specification words it, with
the snapshot re-filtered against the same five exclusion sets at the start of
every iteration (not only before the first) and `process_urls` invoked on the
surviving URLs only. -/
def drain_loop_spec (o : Oracle) (st : Settings) :
    Nat → CrawlState → Option (CrawlState × List (List String))
  | 0, s => if s.new_urls.isEmpty then some (s, []) else none
  | fuel + 1, s =>
    if s.new_urls.isEmpty then some (s, [])
    else
      let batch := s.new_urls.filter (fun url =>
        decide (url ∉ s.good_article_urls ∧ url ∉ s.problematic_article_urls ∧
          url ∉ s.good_urls ∧ url ∉ s.problematic_urls ∧ url ∉ s.known_article_urls))
      let s1 := { s with new_urls := [] }
      let s2 := process_urls o st s1 batch
      (drain_loop_spec o st fuel s2).map (fun r => (r.1, batch :: r.2))

/-- `NewsArticleCrawler.download_and_extract_all_articles`: archive traversal
interleaved with article processing, then the drain.  `Except.error` is the
`ValueError` raised by `url_iterator`; `Option.none` is fuel exhaustion.  The
successful result carries the final state and the recorded state trace
(initial state, state after every archive page, state at the start of every
drain iteration, final state). -/
def run_crawl (o : Oracle) (st : Settings) (known : List String) (fuel : Nat) :
    Except String (Option (CrawlState × List CrawlState)) :=
  match url_iterator_bases st with
  | Except.error e => Except.error e
  | Except.ok bases =>
    match crawl_bases o st fuel (initState known) bases with
    | none => Except.ok none
    | some (s1, tr) =>
      match download_gathered_new_urls o st fuel s1 with
      | none => Except.ok none
      | some (s2, _, trD) =>
        Except.ok (some (s2, initState known :: (tr ++ trD ++ [s2])))

/-- The recorded state trace of a completed run (empty if the run raised or
ran out of fuel). -/
def run_crawl_trace (o : Oracle) (st : Settings) (known : List String) (fuel : Nat) :
    List CrawlState :=
  match run_crawl o st known fuel with
  | Except.ok (some (_, tr)) => tr
  | _ => []

/-- `NewsArchiveCrawler.__init__` loading of `known_article_urls`
(news_crawler.py lines 30-34): when the `known_article_urls` argument is not
`None` the set is read from the `known_bad_urls` file (stripped lines); the
argument's own contents are never consulted.  `read_lines` models the file
system; `open(None)` raising `TypeError` is the `Except.error` case. -/
def init_known_article_urls (read_lines : String → List String)
    (known_article_urls : Option (List String)) (known_bad_urls : Option String) :
    Except String (List String) :=
  match known_article_urls with
  | none => Except.ok []
  | some _ =>
    match known_bad_urls with
    | none => Except.error "TypeError: open(None)"
    | some filename => Except.ok (((read_lines filename).map (fun l => l.trim)).dedup)

/-- Decimal value of a digit string under a left fold, used to invert
`Nat.repr`. -/
def digitsVal (l : List Char) (acc : Nat) : Nat :=
  l.foldl (fun a c => a * 10 + (c.toNat - 48)) acc

/-- Number of decimal digits. -/
def decimalLen (n : Nat) : Nat :=
  if h : n < 10 then 1 else decimalLen (n / 10) + 1
decreasing_by exact Nat.div_lt_self (by omega) (by omega)

/-! ### Concrete example inputs used in scenario theorems and witnesses -/

/-- Every fetch succeeds; the archive page `B` lists article `a`; article `a`
links to `B1`, the URL of the second archive page. -/
def exOracleLink : Oracle :=
  { fetch := fun _ url => some ("h" ++ url)
    article_urls_from_page := fun html =>
      if html = "hB" then ["a"] else if html = "ha" then ["B1"] else []
    next_page_url_from_page := fun _ => none
    article_date_from_page := fun _ => none }

/-- Id-mode settings with pagenum pagination, unbounded `max_pagenum`. -/
def exSettingsPagenum : Settings :=
  { archive_page_urls_by_date := false
    archive_page_urls_by_id := true
    date_from := ⟨2020, 1, 1⟩
    date_until := ⟨2020, 1, 2⟩
    archive_url_format := "B"
    go_reverse_in_archive := false
    min_pagenum := 1
    max_pagenum := none
    next_url_by_regex := false
    next_url_by_pagenum := true
    same_article_url_threshold := 0
    create_corpus := false }

/-- Scenario B collaborators: every fetch succeeds and every page yields one
article URL. -/
def exOracleScenB : Oracle :=
  { fetch := fun _ url => some ("h" ++ url)
    article_urls_from_page := fun _ => ["art"]
    next_page_url_from_page := fun _ => none
    article_date_from_page := fun _ => none }

/-- Scenario B settings: pagenum mode, `min_pagenum = 1`, `max_pagenum = 3`. -/
def exSettingsScenB : Settings :=
  { exSettingsPagenum with max_pagenum := some 3 }

/-- A downloader whose very first call succeeds and all later calls fail,
with a regex next-page extractor that always points back at page `A`. -/
def exOracleSelfLoop : Oracle :=
  { fetch := fun i _ => if i = 0 then some "h" else none
    article_urls_from_page := fun _ => []
    next_page_url_from_page := fun _ => some "A"
    article_date_from_page := fun _ => none }

/-- Regex-pagination settings. -/
def exSettingsRegex : Settings :=
  { exSettingsPagenum with
    next_url_by_regex := true
    next_url_by_pagenum := false }

/-- Settings with both generation modes disabled. -/
def exSettingsNoMode : Settings :=
  { exSettingsPagenum with archive_page_urls_by_id := false }

/-- A frontier state holding two candidate URLs, as left behind by an archive
phase; article `u2` links to `u1`. -/
def exStateTwoNew : CrawlState :=
  { initState [] with new_urls := ["u2", "u1"] }

/-- Collaborators for the drain counterexample: fetch always succeeds, page
`hu2` (the body of `u2`) links to `u1`. -/
def exOracleChain : Oracle :=
  { fetch := fun _ url => some ("h" ++ url)
    article_urls_from_page := fun html => if html = "hu2" then ["u1"] else []
    next_page_url_from_page := fun _ => none
    article_date_from_page := fun _ => none }

/-- Collaborators whose article pages carry no extractable date but one
outbound link `L`. -/
def exOracleNoDate : Oracle :=
  { fetch := fun _ url => some ("h" ++ url)
    article_urls_from_page := fun _ => ["L"]
    next_page_url_from_page := fun _ => none
    article_date_from_page := fun _ => none }

/-- Same collaborators as `exOracleNoDate` but the extracted date is
2020-01-15 (inside the example window). -/
def exOracleGoodDate : Oracle :=
  { exOracleNoDate with article_date_from_page := fun _ => some ⟨2020, 1, 15⟩ }

/-- A finite site: only the URL `B` ever downloads successfully; every page
yields one article URL. -/
def exOracleFiniteSite : Oracle :=
  { fetch := fun _ url => if url = "B" then some "h" else none
    article_urls_from_page := fun _ => ["a"]
    next_page_url_from_page := fun _ => none
    article_date_from_page := fun _ => none }

/-- Date-mode settings for scenario A: template with year and month only,
window 2020-01-01 .. 2020-01-31, corpus creation on. -/
def exSettingsScenA : Settings :=
  { archive_page_urls_by_date := true
    archive_page_urls_by_id := false
    date_from := ⟨2020, 1, 1⟩
    date_until := ⟨2020, 1, 31⟩
    archive_url_format := "https://x/#year/#month"
    go_reverse_in_archive := false
    min_pagenum := 1
    max_pagenum := none
    next_url_by_regex := false
    next_url_by_pagenum := true
    same_article_url_threshold := 0
    create_corpus := true }

theorem digitChar_toNat_sub {m : Nat} (h : m < 10) : (Nat.digitChar m).toNat - 48 = m := by
  interval_cases m <;> decide

theorem digitsVal_cons (c : Char) (ds : List Char) (acc : Nat) :
    digitsVal (c :: ds) acc = digitsVal ds (acc * 10 + (c.toNat - 48)) := rfl

theorem decimalLen_lt (n : Nat) (h : n < 10) : decimalLen n = 1 := by
  rw [decimalLen]; simp [h]

theorem decimalLen_ge (n : Nat) (h : ¬ n < 10) : decimalLen n = decimalLen (n / 10) + 1 := by
  rw [decimalLen]; simp [h]

theorem toDigitsCore_val (fuel : Nat) :
    ∀ n ds acc, n < fuel →
      digitsVal (Nat.toDigitsCore 10 fuel n ds) acc =
        digitsVal ds (acc * 10 ^ decimalLen n + n) := by
  induction fuel with
  | zero => intro n ds acc h; omega
  | succ fuel ih =>
    intro n ds acc h
    by_cases h10 : n / 10 = 0
    · have hn : n < 10 := by omega
      have : Nat.toDigitsCore 10 (fuel + 1) n ds = Nat.digitChar (n % 10) :: ds := by
        rw [Nat.toDigitsCore]; simp [h10]
      rw [this, digitsVal_cons, digitChar_toNat_sub (Nat.mod_lt n (by omega)),
        Nat.mod_eq_of_lt hn, decimalLen_lt n hn, pow_one]
    · have hrec : Nat.toDigitsCore 10 (fuel + 1) n ds =
          Nat.toDigitsCore 10 fuel (n / 10) (Nat.digitChar (n % 10) :: ds) := by
        rw [Nat.toDigitsCore]; simp [h10]
      have hlt : n / 10 < fuel := by omega
      rw [hrec, ih (n / 10) _ acc hlt, digitsVal_cons,
        digitChar_toNat_sub (Nat.mod_lt n (by omega)), decimalLen_ge n (by omega)]
      congr 1
      have hdm : n / 10 * 10 + n % 10 = n := by omega
      calc (acc * 10 ^ decimalLen (n / 10) + n / 10) * 10 + n % 10
          = acc * (10 ^ decimalLen (n / 10) * 10) + (n / 10 * 10 + n % 10) := by ring
        _ = acc * 10 ^ (decimalLen (n / 10) + 1) + n := by rw [hdm, pow_succ]

theorem digitsVal_repr (n : Nat) : digitsVal (Nat.repr n).data 0 = n := by
  have h : (Nat.repr n).data = Nat.toDigitsCore 10 (n + 1) n [] := rfl
  rw [h, toDigitsCore_val (n + 1) n [] 0 (Nat.lt_succ_self n)]
  simp [digitsVal]

theorem nat_repr_injective : Function.Injective Nat.repr := by
  intro m n h
  have hm := digitsVal_repr m
  rw [h, digitsVal_repr] at hm
  omega

theorem nat_repr_ne_empty (n : Nat) : Nat.repr n ≠ "" := by
  intro h
  have hv := digitsVal_repr n
  rw [h] at hv
  simp [digitsVal] at hv
  rw [← hv] at h
  exact absurd h (by decide)

theorem append_repr_injective (base : String) :
    Function.Injective (fun n => base ++ Nat.repr n) := by
  intro m n h
  simp only at h
  apply nat_repr_injective
  apply String.ext
  have hd : (base ++ Nat.repr m).data = (base ++ Nat.repr n).data := congrArg String.data h
  rw [String.data_append, String.data_append] at hd
  exact List.append_cancel_left hd

theorem base_ne_append_repr (base : String) (n : Nat) : base ≠ base ++ Nat.repr n := by
  intro h
  have hl : base.length = base.length + (Nat.repr n).length := by
    conv_lhs => rw [h]
    exact String.length_append base (Nat.repr n)
  have h0 : (Nat.repr n).length = 0 := by omega
  have hdata : (Nat.repr n).data = [] := List.length_eq_zero.mp h0
  exact nat_repr_ne_empty n (String.ext hdata)

/-! ### Basic state lemmas -/

theorem admit_new_fields (s : CrawlState) (u : String) :
    (admit_new s u).known_article_urls = s.known_article_urls ∧
    (admit_new s u).good_urls = s.good_urls ∧
    (admit_new s u).problematic_urls = s.problematic_urls ∧
    (admit_new s u).good_article_urls = s.good_article_urls ∧
    (admit_new s u).problematic_article_urls = s.problematic_article_urls ∧
    (admit_new s u).corpus_urls = s.corpus_urls ∧
    (admit_new s u).fetched_urls = s.fetched_urls ∧
    (admit_new s u).fetch_count = s.fetch_count := by
  unfold admit_new; split <;> simp

theorem admit_new_new_urls_mem (s : CrawlState) (u v : String) :
    v ∈ (admit_new s u).new_urls ↔
      v ∈ s.new_urls ∨ (v = u ∧ u ∉ s.good_article_urls ∧ u ∉ s.problematic_article_urls ∧
        u ∉ s.good_urls ∧ u ∉ s.problematic_urls ∧ u ∉ s.known_article_urls) := by
  unfold admit_new
  split
  · next hc => simp only [List.mem_insert_iff]; tauto
  · next hc => tauto

theorem foldl_admit_new_fields (l : List String) (s : CrawlState) :
    ((l.foldl admit_new s).known_article_urls = s.known_article_urls ∧
     (l.foldl admit_new s).good_urls = s.good_urls ∧
     (l.foldl admit_new s).problematic_urls = s.problematic_urls ∧
     (l.foldl admit_new s).good_article_urls = s.good_article_urls ∧
     (l.foldl admit_new s).problematic_article_urls = s.problematic_article_urls ∧
     (l.foldl admit_new s).corpus_urls = s.corpus_urls ∧
     (l.foldl admit_new s).fetched_urls = s.fetched_urls ∧
     (l.foldl admit_new s).fetch_count = s.fetch_count) := by
  induction l generalizing s with
  | nil => simp
  | cons u l ih =>
    simp only [List.foldl_cons]
    obtain ⟨a1, a2, a3, a4, a5, a6, a7, a8⟩ := admit_new_fields s u
    obtain ⟨b1, b2, b3, b4, b5, b6, b7, b8⟩ := ih (admit_new s u)
    exact ⟨b1.trans a1, b2.trans a2, b3.trans a3, b4.trans a4, b5.trans a5, b6.trans a6,
      b7.trans a7, b8.trans a8⟩

theorem foldl_admit_new_new_urls_mem (l : List String) (s : CrawlState) (v : String) :
    v ∈ (l.foldl admit_new s).new_urls ↔
      v ∈ s.new_urls ∨ (v ∈ l ∧ v ∉ s.good_article_urls ∧ v ∉ s.problematic_article_urls ∧
        v ∉ s.good_urls ∧ v ∉ s.problematic_urls ∧ v ∉ s.known_article_urls) := by
  induction l generalizing s with
  | nil => simp
  | cons u l ih =>
    simp only [List.foldl_cons, List.mem_cons]
    rw [ih (admit_new s u)]
    obtain ⟨a1, a2, a3, a4, a5, _, _, _⟩ := admit_new_fields s u
    rw [a1, a2, a3, a4, a5, admit_new_new_urls_mem]
    constructor
    · rintro ((hv | ⟨rfl, h5⟩) | ⟨hvl, h5⟩)
      · exact Or.inl hv
      · exact Or.inr ⟨Or.inl rfl, h5⟩
      · exact Or.inr ⟨Or.inr hvl, h5⟩
    · rintro (hv | ⟨rfl | hvl, h5⟩)
      · exact Or.inl (Or.inl hv)
      · exact Or.inl (Or.inr ⟨rfl, h5⟩)
      · exact Or.inr ⟨hvl, h5⟩

/-- Flattened normal form of `process_one_url`, for case analysis. -/
theorem process_one_url_eq (o : Oracle) (st : Settings) (s : CrawlState) (url : String) :
    process_one_url o st s url =
      if url ∈ s.good_article_urls ∨ url ∈ s.problematic_article_urls then s
      else
        match o.fetch s.fetch_count url with
        | none =>
          { s with
            fetched_urls := s.fetched_urls ++ [url]
            fetch_count := s.fetch_count + 1
            problematic_article_urls := s.problematic_article_urls.insert url }
        | some html =>
          (o.article_urls_from_page html).foldl admit_new
            { s with
              fetched_urls := s.fetched_urls ++ [url]
              fetch_count := s.fetch_count + 1
              good_article_urls := s.good_article_urls.insert url
              corpus_urls :=
                if article_date_is_ok st (o.article_date_from_page html) && st.create_corpus then
                  s.corpus_urls ++ [url] else s.corpus_urls } := by
  unfold process_one_url fetchUrl
  split
  · rfl
  · cases hf : o.fetch s.fetch_count url with
    | none => rfl
    | some html =>
      simp only []
      split
      · next hcond => simp only [hcond, if_pos]
      · next hcond => simp only [if_neg hcond]

theorem process_one_url_skip (o : Oracle) (st : Settings) (s : CrawlState) (url : String)
    (h : url ∈ s.good_article_urls ∨ url ∈ s.problematic_article_urls) :
    process_one_url o st s url = s := by
  rw [process_one_url_eq, if_pos h]

theorem process_one_url_archive_fields (o : Oracle) (st : Settings) (s : CrawlState)
    (url : String) :
    (process_one_url o st s url).known_article_urls = s.known_article_urls ∧
    (process_one_url o st s url).good_urls = s.good_urls ∧
    (process_one_url o st s url).problematic_urls = s.problematic_urls := by
  rw [process_one_url_eq]
  split
  · exact ⟨rfl, rfl, rfl⟩
  · cases hf : o.fetch s.fetch_count url with
    | none => exact ⟨rfl, rfl, rfl⟩
    | some html =>
      obtain ⟨a1, a2, a3, _, _, _, _, _⟩ := foldl_admit_new_fields (o.article_urls_from_page html)
        { s with
          fetched_urls := s.fetched_urls ++ [url]
          fetch_count := s.fetch_count + 1
          good_article_urls := s.good_article_urls.insert url
          corpus_urls :=
            if article_date_is_ok st (o.article_date_from_page html) && st.create_corpus then
              s.corpus_urls ++ [url] else s.corpus_urls }
      exact ⟨a1, a2, a3⟩

theorem process_one_url_article_mono (o : Oracle) (st : Settings) (s : CrawlState)
    (url : String) :
    (∀ v ∈ s.good_article_urls, v ∈ (process_one_url o st s url).good_article_urls) ∧
    (∀ v ∈ s.problematic_article_urls, v ∈ (process_one_url o st s url).problematic_article_urls) := by
  rw [process_one_url_eq]
  split
  · exact ⟨fun v hv => hv, fun v hv => hv⟩
  · cases hf : o.fetch s.fetch_count url with
    | none =>
      refine ⟨fun v hv => hv, fun v hv => ?_⟩
      simp only [List.mem_insert_iff]
      exact Or.inr hv
    | some html =>
      obtain ⟨_, _, _, a4, a5, _, _, _⟩ := foldl_admit_new_fields (o.article_urls_from_page html)
        { s with
          fetched_urls := s.fetched_urls ++ [url]
          fetch_count := s.fetch_count + 1
          good_article_urls := s.good_article_urls.insert url
          corpus_urls :=
            if article_date_is_ok st (o.article_date_from_page html) && st.create_corpus then
              s.corpus_urls ++ [url] else s.corpus_urls }
      rw [a4, a5]
      refine ⟨fun v hv => ?_, fun v hv => hv⟩
      simp only [List.mem_insert_iff]
      exact Or.inr hv

theorem process_one_url_article_disj (o : Oracle) (st : Settings) (s : CrawlState) (url : String)
    (h : ∀ v ∈ s.good_article_urls, v ∉ s.problematic_article_urls) :
    ∀ v ∈ (process_one_url o st s url).good_article_urls,
      v ∉ (process_one_url o st s url).problematic_article_urls := by
  rw [process_one_url_eq]
  split
  · exact h
  · next hguard =>
    push_neg at hguard
    cases hf : o.fetch s.fetch_count url with
    | none =>
      intro v hv hvp
      simp only [List.mem_insert_iff] at hvp
      rcases hvp with rfl | hvp
      · exact hguard.1 hv
      · exact h v hv hvp
    | some html =>
      obtain ⟨_, _, _, a4, a5, _, _, _⟩ := foldl_admit_new_fields (o.article_urls_from_page html)
        { s with
          fetched_urls := s.fetched_urls ++ [url]
          fetch_count := s.fetch_count + 1
          good_article_urls := s.good_article_urls.insert url
          corpus_urls :=
            if article_date_is_ok st (o.article_date_from_page html) && st.create_corpus then
              s.corpus_urls ++ [url] else s.corpus_urls }
      intro v hv hvp
      rw [a4] at hv
      rw [a5] at hvp
      simp only [List.mem_insert_iff] at hv
      rcases hv with rfl | hv
      · exact hguard.2 hvp
      · exact h v hv hvp

theorem process_one_url_known_new (o : Oracle) (st : Settings) (s : CrawlState) (url : String)
    (h : ∀ u ∈ s.known_article_urls, u ∉ s.new_urls) :
    ∀ u ∈ s.known_article_urls, u ∉ (process_one_url o st s url).new_urls := by
  rw [process_one_url_eq]
  split
  · exact h
  · cases hf : o.fetch s.fetch_count url with
    | none => exact h
    | some html =>
      intro u hu hmem
      rw [foldl_admit_new_new_urls_mem] at hmem
      rcases hmem with hv | ⟨_, _, _, _, _, hnk⟩
      · exact h u hu hv
      · exact hnk hu

theorem process_one_url_new_urls_origin (o : Oracle) (st : Settings) (s : CrawlState)
    (url : String) :
    ∀ v ∈ (process_one_url o st s url).new_urls,
      v ∈ s.new_urls ∨ (v ∉ s.good_urls ∧ v ∉ s.problematic_urls ∧ v ∉ s.known_article_urls) := by
  rw [process_one_url_eq]
  split
  · exact fun v hv => Or.inl hv
  · cases hf : o.fetch s.fetch_count url with
    | none => exact fun v hv => Or.inl hv
    | some html =>
      intro v hv
      rw [foldl_admit_new_new_urls_mem] at hv
      rcases hv with hv | ⟨_, _, _, hg, hp, hk⟩
      · exact Or.inl hv
      · exact Or.inr ⟨hg, hp, hk⟩

/-! ### Preservation of invariants through the run -/

theorem process_urls_preserve (o : Oracle) (st : Settings) (P : CrawlState → Prop)
    (hstep : ∀ s url, P s → P (process_one_url o st s url)) :
    ∀ urls s, P s → P (process_urls o st s urls) := by
  intro urls
  induction urls with
  | nil => exact fun s h => h
  | cons u l ih => exact fun s h => ih (process_one_url o st s u) (hstep s u h)

theorem crawl_base_preserve (o : Oracle) (st : Settings) (P : CrawlState → Prop)
    (hgood : ∀ s url html, o.fetch s.fetch_count url = some html → P s → P { s with
      fetched_urls := s.fetched_urls ++ [url]
      fetch_count := s.fetch_count + 1
      good_urls := s.good_urls.insert url })
    (hprob : ∀ s url, o.fetch s.fetch_count url = none → P s → P { s with
      fetched_urls := s.fetched_urls ++ [url]
      fetch_count := s.fetch_count + 1
      problematic_urls := s.problematic_urls.insert url })
    (hproc : ∀ s url, P s → P (process_one_url o st s url)) :
    ∀ fuel s base cur page_num sf tr,
      crawl_base o st fuel s base cur page_num = some (sf, tr) → P s →
      P sf ∧ ∀ s' ∈ tr, P s' := by
  intro fuel
  induction fuel with
  | zero =>
    intro s base cur page_num sf tr heq hP
    cases cur with
    | none =>
      simp only [crawl_base] at heq
      cases heq
      exact ⟨hP, by simp⟩
    | some url =>
      simp only [crawl_base] at heq
      exact Option.noConfusion heq
  | succ fuel ih =>
    intro s base cur page_num sf tr heq hP
    cases cur with
    | none =>
      simp only [crawl_base] at heq
      cases heq
      exact ⟨hP, by simp⟩
    | some url =>
      rw [crawl_base, fetchUrl] at heq
      cases hf : o.fetch s.fetch_count url with
      | some html =>
        rw [hf] at heq
        simp only [Option.map_eq_some'] at heq
        obtain ⟨⟨s', tr'⟩, hrec, heq2⟩ := heq
        cases heq2
        have hP2 : P (process_urls o st { s with
            fetched_urls := s.fetched_urls ++ [url]
            fetch_count := s.fetch_count + 1
            good_urls := s.good_urls.insert url } (o.article_urls_from_page html)) :=
          process_urls_preserve o st P hproc _ _ (hgood s url html hf hP)
        obtain ⟨hfin, htr⟩ := ih _ _ _ _ _ _ hrec hP2
        refine ⟨hfin, ?_⟩
        intro x hx
        rcases List.mem_cons.mp hx with rfl | hx
        · exact hP2
        · exact htr x hx
      | none =>
        rw [hf] at heq
        simp only [] at heq
        cases heq
        refine ⟨hprob s url hf hP, ?_⟩
        intro x hx
        rcases List.mem_cons.mp hx with rfl | hx
        · exact hprob s url hf hP
        · simp at hx

theorem crawl_bases_preserve (o : Oracle) (st : Settings) (P : CrawlState → Prop)
    (hgood : ∀ s url html, o.fetch s.fetch_count url = some html → P s → P { s with
      fetched_urls := s.fetched_urls ++ [url]
      fetch_count := s.fetch_count + 1
      good_urls := s.good_urls.insert url })
    (hprob : ∀ s url, o.fetch s.fetch_count url = none → P s → P { s with
      fetched_urls := s.fetched_urls ++ [url]
      fetch_count := s.fetch_count + 1
      problematic_urls := s.problematic_urls.insert url })
    (hproc : ∀ s url, P s → P (process_one_url o st s url)) :
    ∀ bases fuel s sf tr,
      crawl_bases o st fuel s bases = some (sf, tr) → P s →
      P sf ∧ ∀ s' ∈ tr, P s' := by
  intro bases
  induction bases with
  | nil =>
    intro fuel s sf tr heq hP
    simp only [crawl_bases] at heq
    cases heq
    exact ⟨hP, by simp⟩
  | cons base rest ih =>
    intro fuel s sf tr heq hP
    rw [crawl_bases] at heq
    cases hcb : crawl_base o st fuel s base (some base) st.min_pagenum with
    | none => rw [hcb] at heq; exact Option.noConfusion heq
    | some r =>
      obtain ⟨s1, tr1⟩ := r
      rw [hcb] at heq
      simp only [Option.map_eq_some'] at heq
      obtain ⟨⟨s2, tr2⟩, hrec, heq2⟩ := heq
      cases heq2
      obtain ⟨hP1, htr1⟩ :=
        crawl_base_preserve o st P hgood hprob hproc fuel s base (some base) st.min_pagenum s1 tr1
          hcb hP
      obtain ⟨hP2, htr2⟩ := ih fuel s1 s2 tr2 hrec hP1
      refine ⟨hP2, ?_⟩
      intro x hx
      rcases List.mem_append.mp hx with hx | hx
      · exact htr1 x hx
      · exact htr2 x hx

theorem drain_loop_preserve (o : Oracle) (st : Settings) (P : CrawlState → Prop)
    (hnew : ∀ s l, (∀ v ∈ l, v ∈ s.new_urls) → P s → P { s with new_urls := l })
    (hproc : ∀ s url, P s → P (process_one_url o st s url)) :
    ∀ fuel s sf batches states,
      drain_loop o st fuel s = some (sf, batches, states) → P s →
      P sf ∧ ∀ s' ∈ states, P s' := by
  intro fuel
  induction fuel with
  | zero =>
    intro s sf batches states heq hP
    rw [drain_loop] at heq
    split at heq
    · cases heq; exact ⟨hP, by simp⟩
    · exact Option.noConfusion heq
  | succ fuel ih =>
    intro s sf batches states heq hP
    rw [drain_loop] at heq
    split at heq
    · cases heq; exact ⟨hP, by simp⟩
    · simp only [Option.map_eq_some'] at heq
      obtain ⟨⟨s2, b2, st2⟩, hrec, heq2⟩ := heq
      cases heq2
      have hP1 : P { s with new_urls := [] } := hnew s [] (by simp) hP
      have hP2 : P (process_urls o st { s with new_urls := [] } s.new_urls) :=
        process_urls_preserve o st P hproc _ _ hP1
      obtain ⟨hPf, hst⟩ := ih _ _ _ _ hrec hP2
      refine ⟨hPf, ?_⟩
      intro x hx
      rcases List.mem_cons.mp hx with rfl | hx
      · exact hP
      · exact hst x hx

theorem download_gathered_preserve (o : Oracle) (st : Settings) (P : CrawlState → Prop)
    (hnew : ∀ s l, (∀ v ∈ l, v ∈ s.new_urls) → P s → P { s with new_urls := l })
    (hproc : ∀ s url, P s → P (process_one_url o st s url)) :
    ∀ fuel s sf batches states,
      download_gathered_new_urls o st fuel s = some (sf, batches, states) → P s →
      P sf ∧ ∀ s' ∈ states, P s' := by
  intro fuel s sf batches states heq hP
  have hP0 : P (recheck_new_urls s) := by
    apply hnew s _ _ hP
    intro v hv
    exact (List.mem_filter.mp hv).1
  exact drain_loop_preserve o st P hnew hproc fuel _ sf batches states heq hP0

theorem run_crawl_trace_preserve (o : Oracle) (st : Settings) (known : List String)
    (fuel : Nat) (P : CrawlState → Prop)
    (hgood : ∀ s url html, o.fetch s.fetch_count url = some html → P s → P { s with
      fetched_urls := s.fetched_urls ++ [url]
      fetch_count := s.fetch_count + 1
      good_urls := s.good_urls.insert url })
    (hprob : ∀ s url, o.fetch s.fetch_count url = none → P s → P { s with
      fetched_urls := s.fetched_urls ++ [url]
      fetch_count := s.fetch_count + 1
      problematic_urls := s.problematic_urls.insert url })
    (hproc : ∀ s url, P s → P (process_one_url o st s url))
    (hnew : ∀ s l, (∀ v ∈ l, v ∈ s.new_urls) → P s → P { s with new_urls := l })
    (hinit : P (initState known)) :
    ∀ s' ∈ run_crawl_trace o st known fuel, P s' := by
  intro s' hs'
  unfold run_crawl_trace run_crawl at hs'
  cases hbases : url_iterator_bases st with
  | error e => simp only [hbases] at hs'; simp at hs'
  | ok bases =>
    simp only [hbases] at hs'
    cases hcb : crawl_bases o st fuel (initState known) bases with
    | none => simp only [hcb] at hs'; simp at hs'
    | some r =>
      obtain ⟨s1, tr⟩ := r
      simp only [hcb] at hs'
      cases hdg : download_gathered_new_urls o st fuel s1 with
      | none => simp only [hdg] at hs'; simp at hs'
      | some r2 =>
        obtain ⟨s2, batches, trD⟩ := r2
        simp only [hdg] at hs'
        simp only [List.mem_cons, List.mem_append] at hs'
        obtain ⟨hP1, htr⟩ :=
          crawl_bases_preserve o st P hgood hprob hproc bases fuel (initState known) s1 tr hcb
            hinit
        obtain ⟨hP2, htrD⟩ := download_gathered_preserve o st P hnew hproc fuel s1 s2 batches trD
          hdg hP1
        rcases hs' with rfl | (hx | hx) | hx
        · exact hinit
        · exact htr s' hx
        · exact htrD s' hx
        · rcases hx with rfl | hx
          · exact hP2
          · simp at hx

/-! ### Claim C9 -/

/-- C9: invoking `download_gathered_new_urls` when `new_urls` is already empty
performs zero fetches, hands no batch to `process_urls`, and leaves the whole
state (every URL set included) unchanged. -/
theorem c9_drain_idempotent_on_empty (o : Oracle) (st : Settings) (fuel : Nat) (s : CrawlState)
    (h : s.new_urls = []) :
    download_gathered_new_urls o st fuel s = some (s, [], []) := by
  have hre : recheck_new_urls s = s := by
    unfold recheck_new_urls
    cases s
    simp_all
  unfold download_gathered_new_urls
  rw [hre]
  cases fuel <;> rw [drain_loop] <;> simp [h]

/-- C9 witness: the drain applied to the freshly initialised state. -/
theorem c9_witness :
    (initState []).new_urls = [] ∧
    download_gathered_new_urls exOracleLink exSettingsPagenum 3 (initState []) =
      some (initState [], [], []) :=
  ⟨rfl, c9_drain_idempotent_on_empty exOracleLink exSettingsPagenum 3 (initState []) rfl⟩

/-! ### Claim C10 -/

/-- C10: at construction, the known set is the stripped lines of the
`known_bad_urls` file exactly when the `known_article_urls` argument is not
`None` (otherwise it is empty); the contents of `known_article_urls` are
never read; a non-`None` argument together with `known_bad_urls = None`
makes construction fail. -/
theorem c10_init_known_article_urls (read_lines : String → List String)
    (a b : List String) (f : String) :
    init_known_article_urls read_lines none (some f) = Except.ok [] ∧
    init_known_article_urls read_lines none none = Except.ok [] ∧
    init_known_article_urls read_lines (some a) (some f) =
      Except.ok (((read_lines f).map (fun l => l.trim)).dedup) ∧
    init_known_article_urls read_lines (some a) (some f) =
      init_known_article_urls read_lines (some b) (some f) ∧
    init_known_article_urls read_lines (some a) none = Except.error "TypeError: open(None)" :=
  ⟨rfl, rfl, rfl, rfl, rfl⟩

/-! ### Claim C7 -/

theorem foldl_admit_new_agree (l : List String) :
    ∀ (s1 s2 : CrawlState),
      s1.known_article_urls = s2.known_article_urls →
      s1.good_urls = s2.good_urls →
      s1.problematic_urls = s2.problematic_urls →
      s1.good_article_urls = s2.good_article_urls →
      s1.problematic_article_urls = s2.problematic_article_urls →
      s1.new_urls = s2.new_urls →
      (l.foldl admit_new s1).new_urls = (l.foldl admit_new s2).new_urls ∧
      (l.foldl admit_new s1).good_article_urls = (l.foldl admit_new s2).good_article_urls := by
  induction l with
  | nil => intro s1 s2 _ _ _ hga _ hn; exact ⟨hn, hga⟩
  | cons u l ih =>
    intro s1 s2 hk hg hp hga hpa hn
    simp only [List.foldl_cons]
    have hcond : (u ∉ s1.good_article_urls ∧ u ∉ s1.problematic_article_urls ∧
        u ∉ s1.good_urls ∧ u ∉ s1.problematic_urls ∧ u ∉ s1.known_article_urls) ↔
        (u ∉ s2.good_article_urls ∧ u ∉ s2.problematic_article_urls ∧
        u ∉ s2.good_urls ∧ u ∉ s2.problematic_urls ∧ u ∉ s2.known_article_urls) := by
      rw [hk, hg, hp, hga, hpa]
    by_cases hc : u ∉ s2.good_article_urls ∧ u ∉ s2.problematic_article_urls ∧
        u ∉ s2.good_urls ∧ u ∉ s2.problematic_urls ∧ u ∉ s2.known_article_urls
    · unfold admit_new
      rw [if_pos (hcond.mpr hc), if_pos hc]
      exact ih _ _ hk hg hp hga hpa (by rw [hn])
    · unfold admit_new
      rw [if_neg (fun hx => hc (hcond.mp hx)), if_neg hc]
      exact ih _ _ hk hg hp hga hpa hn

/-- C7: for a processed article URL whose download succeeds but whose
extracted date is missing or outside `[date_from, date_until]`, the converter
is never invoked for that URL (`corpus_urls` unchanged), yet the outbound
links are extracted and admitted exactly as they would be under any
collaborator that returns the same page content and links but any other date
(in particular a date-valid one). -/
theorem c7_date_filter_independence (o o' : Oracle) (st : Settings) (s : CrawlState)
    (url html : String)
    (hfetch : o.fetch s.fetch_count url = some html)
    (hg : url ∉ s.good_article_urls) (hp : url ∉ s.problematic_article_urls)
    (hdate : article_date_is_ok st (o.article_date_from_page html) = false)
    (hf' : o'.fetch = o.fetch) (ha' : o'.article_urls_from_page = o.article_urls_from_page) :
    (process_one_url o st s url).corpus_urls = s.corpus_urls ∧
    (process_one_url o st s url).new_urls = (process_one_url o' st s url).new_urls ∧
    (process_one_url o st s url).good_article_urls =
      (process_one_url o' st s url).good_article_urls := by
  have hguard : ¬(url ∈ s.good_article_urls ∨ url ∈ s.problematic_article_urls) := by tauto
  rw [process_one_url_eq, process_one_url_eq, if_neg hguard, if_neg hguard, hf', ha', hfetch]
  simp only [hdate, Bool.false_and, if_neg, Bool.false_eq_true, not_false_iff]
  refine ⟨?_, ?_⟩
  · obtain ⟨_, _, _, _, _, hc, _, _⟩ := foldl_admit_new_fields (o.article_urls_from_page html)
      { s with
        fetched_urls := s.fetched_urls ++ [url]
        fetch_count := s.fetch_count + 1
        good_article_urls := s.good_article_urls.insert url }
    exact hc
  · exact foldl_admit_new_agree (o.article_urls_from_page html) _ _ rfl rfl rfl rfl rfl rfl

/-- C7 witness: the same article processed with a date-less extractor and a
date-valid extractor; the converter output stays empty in the first case and
the admitted links agree. -/
theorem c7_witness :
    (process_one_url exOracleNoDate exSettingsScenA (initState []) "u").corpus_urls = [] ∧
    (process_one_url exOracleNoDate exSettingsScenA (initState []) "u").new_urls =
      (process_one_url exOracleGoodDate exSettingsScenA (initState []) "u").new_urls ∧
    (process_one_url exOracleNoDate exSettingsScenA (initState []) "u").good_article_urls =
      (process_one_url exOracleGoodDate exSettingsScenA (initState []) "u").good_article_urls :=
  c7_date_filter_independence exOracleNoDate exOracleGoodDate exSettingsScenA (initState [])
    "u" "hu" rfl (by decide) (by decide) rfl rfl rfl

/-! ### Claim C1 -/

/-- C1 (counterexample to the claim as stated): in this run the article on the
first archive page links to `B1`, the URL of the second archive page; `B1` is
admitted to `new_urls` and afterwards the archive walker fetches `B1`
successfully, so a member of the archive good set is present in `new_urls`. -/
theorem c1_counterexample :
    ∃ s' ∈ run_crawl_trace exOracleLink exSettingsPagenum [] 5,
      "B1" ∈ s'.good_urls ∧ "B1" ∈ s'.new_urls := by decide

/-- C1 (amended): an extracted link is added to `new_urls` iff it is absent
from all five classification sets at admission time; consequently no URL of
the pre-loaded `known_article_urls` set is ever present in `new_urls` at any
recorded point of any run.  (The original claim also asserted this for
`archive_good_urls`; that part fails, see the counterexample.) -/
theorem c1_admission_iff_and_known_never_in_new :
    (∀ (s : CrawlState) (u : String),
      ((u ∉ s.good_article_urls ∧ u ∉ s.problematic_article_urls ∧ u ∉ s.good_urls ∧
          u ∉ s.problematic_urls ∧ u ∉ s.known_article_urls) →
        admit_new s u = { s with new_urls := s.new_urls.insert u }) ∧
      (¬(u ∉ s.good_article_urls ∧ u ∉ s.problematic_article_urls ∧ u ∉ s.good_urls ∧
          u ∉ s.problematic_urls ∧ u ∉ s.known_article_urls) →
        admit_new s u = s)) ∧
    (∀ (o : Oracle) (st : Settings) (known : List String) (fuel : Nat),
      ∀ s' ∈ run_crawl_trace o st known fuel, ∀ u ∈ known, u ∉ s'.new_urls) := by
  constructor
  · intro s u
    constructor
    · intro h; unfold admit_new; rw [if_pos h]
    · intro h; unfold admit_new; rw [if_neg h]
  · intro o st known fuel
    have hmain := run_crawl_trace_preserve o st known fuel
      (fun s => s.known_article_urls = known ∧ ∀ u ∈ known, u ∉ s.new_urls)
      (fun s url html _ hP => hP)
      (fun s url _ hP => hP)
      (fun s url hP => by
        refine ⟨(process_one_url_archive_fields o st s url).1.trans hP.1, ?_⟩
        intro u hu
        have hknown : ∀ v ∈ s.known_article_urls, v ∉ s.new_urls := by
          intro v hv
          exact hP.2 v (hP.1 ▸ hv)
        exact process_one_url_known_new o st s url hknown u (by rw [hP.1]; exact hu))
      (fun s l hsub hP => by
        refine ⟨hP.1, ?_⟩
        intro u hu hmem
        exact hP.2 u hu (hsub u hmem))
      (by refine ⟨rfl, ?_⟩; intro u hu; simp [initState])
    intro s' hs' u hu
    exact (hmain s' hs').2 u hu

/-- C1 witness: a concrete admission and a concrete run state. -/
theorem c1_witness :
    admit_new (initState ["k"]) "u" = { initState ["k"] with new_urls := ["u"] } ∧
    "k" ∉ (initState ["k"]).new_urls := by
  constructor
  · rw [(c1_admission_iff_and_known_never_in_new.1 (initState ["k"]) "u").1 (by decide)]
    decide
  · exact c1_admission_iff_and_known_never_in_new.2 exOracleLink exSettingsPagenum ["k"] 5
      (initState ["k"]) (by decide) "k" (by decide)

/-! ### Claim C8 -/

/-- C8 (counterexample to the claim as stated): with a downloader whose first
call succeeds and whose second call fails, and a regex next-page extractor
that points back at page `A`, the archive walk fetches `A` twice and puts `A`
into both the archive good set and the archive problematic set. -/
theorem c8_counterexample :
    (walk_archive_pages exOracleSelfLoop exSettingsRegex 3 (initState []) "A" (some "A") 1).map
        (fun r => (r.1.good_urls, r.1.problematic_urls)) = some (["A"], ["A"]) := by decide

/-- C8 (amended): the article good/problematic sets stay disjoint after every
step of every run, unconditionally (the duplicate guard fetches each article
URL at most once); the archive good/problematic sets stay disjoint provided
the downloader's success or failure is a function of the URL alone (for
example when answers are served from a cache) — with a downloader whose
answers vary between calls to the same URL they can intersect, see the
counterexample. -/
theorem c8_good_problematic_disjoint :
    (∀ (o : Oracle) (st : Settings) (s : CrawlState) (url : String),
      (∀ v ∈ s.good_article_urls, v ∉ s.problematic_article_urls) →
      ∀ v ∈ (process_one_url o st s url).good_article_urls,
        v ∉ (process_one_url o st s url).problematic_article_urls) ∧
    (∀ (o : Oracle) (st : Settings) (known : List String) (fuel : Nat),
      ∀ s' ∈ run_crawl_trace o st known fuel,
        ∀ v ∈ s'.good_article_urls, v ∉ s'.problematic_article_urls) ∧
    (∀ (o : Oracle) (f : String → Option String), (∀ i u, o.fetch i u = f u) →
      ∀ (st : Settings) (known : List String) (fuel : Nat),
        ∀ s' ∈ run_crawl_trace o st known fuel,
          ∀ v ∈ s'.good_urls, v ∉ s'.problematic_urls) := by
  refine ⟨process_one_url_article_disj, ?_, ?_⟩
  · intro o st known fuel
    exact run_crawl_trace_preserve o st known fuel
      (fun s => ∀ v ∈ s.good_article_urls, v ∉ s.problematic_article_urls)
      (fun s url html _ hP => hP)
      (fun s url _ hP => hP)
      (fun s url hP => process_one_url_article_disj o st s url hP)
      (fun s l _ hP => hP)
      (by intro v hv; simp [initState] at hv)
  · intro o f hdet st known fuel
    have hmain := run_crawl_trace_preserve o st known fuel
      (fun s => (∀ u ∈ s.good_urls, f u ≠ none) ∧ (∀ u ∈ s.problematic_urls, f u = none))
      (fun s url html hf hP => by
        refine ⟨?_, hP.2⟩
        intro v hv
        rcases List.mem_insert_iff.mp hv with rfl | hv
        · rw [← hdet s.fetch_count v, hf]; exact Option.noConfusion
        · exact hP.1 v hv)
      (fun s url hf hP => by
        refine ⟨hP.1, ?_⟩
        intro v hv
        rcases List.mem_insert_iff.mp hv with rfl | hv
        · rw [← hdet s.fetch_count v]; exact hf
        · exact hP.2 v hv)
      (fun s url hP => by
        obtain ⟨_, hg, hpr⟩ := process_one_url_archive_fields o st s url
        rw [hg, hpr]; exact hP)
      (fun s l _ hP => hP)
      (by constructor <;> intro v hv <;> simp [initState] at hv)
    intro s' hs' v hv hvp
    obtain ⟨h1, h2⟩ := hmain s' hs'
    exact h1 v hv (h2 v hvp)

/-- C8 witness: a concrete processed article and a concrete deterministic
run. -/
theorem c8_witness :
    ("a" ∈ (process_one_url exOracleLink exSettingsPagenum (initState []) "a").good_article_urls ∧
      "a" ∉ (process_one_url exOracleLink exSettingsPagenum (initState []) "a").problematic_article_urls) ∧
    ("B" ∈ ((run_crawl_trace exOracleLink exSettingsPagenum [] 5).getLast (by decide)).good_urls →
      "B" ∉ ((run_crawl_trace exOracleLink exSettingsPagenum [] 5).getLast (by decide)).problematic_urls) := by
  constructor
  · exact ⟨by decide,
      c8_good_problematic_disjoint.1 exOracleLink exSettingsPagenum (initState []) "a"
        (by decide) "a" (by decide)⟩
  · intro hB
    exact c8_good_problematic_disjoint.2.2 exOracleLink (fun url => some ("h" ++ url))
      (fun i u => rfl) exSettingsPagenum [] 5 _ (List.getLast_mem (by decide)) "B" hB

/-! ### Claim C3 -/

/-- C3: in pagenum mode (`next_url_by_regex` off, `next_url_by_pagenum` on)
the resolver returns the synthesized URL `base ++ page_num` exactly when the
page yielded at least one article URL, and the known set is empty or its
overlap with the page's article URLs exceeds `same_article_url_threshold`,
and `max_pagenum` is unset or `page_num` is below it; otherwise it stops.
Scenario B: with `min_pagenum = 1`, `max_pagenum = 3`, every fetch succeeding
and every page yielding an article URL, exactly the three pages `B`, `B1`,
`B2` are fetched and then the walk stops. -/
theorem c3_pagenum_resolver :
    (∀ (o : Oracle) (st : Settings) (known : List String) (html base : String)
        (arts : List String) (p : Nat),
      st.next_url_by_regex = false → st.next_url_by_pagenum = true →
      ((extract_next_page_url o st known html base arts p = some (base ++ Nat.repr p) ↔
          (0 < arts.length ∧
            (known = [] ∨ st.same_article_url_threshold <
              (known.filter (fun u => u ∈ arts)).length) ∧
            (st.max_pagenum = none ∨ ∃ m, st.max_pagenum = some m ∧ p < m))) ∧
        (extract_next_page_url o st known html base arts p = none ↔
          ¬(0 < arts.length ∧
            (known = [] ∨ st.same_article_url_threshold <
              (known.filter (fun u => u ∈ arts)).length) ∧
            (st.max_pagenum = none ∨ ∃ m, st.max_pagenum = some m ∧ p < m))))) ∧
    ((walk_archive_pages exOracleScenB exSettingsScenB 10 (initState []) "B" (some "B") 1).map
        (fun r => r.1.fetched_urls) = some ["B", "B1", "B2"]) := by
  constructor
  · intro o st known html base arts p hregex hpagenum
    unfold extract_next_page_url
    rw [hregex, hpagenum]
    cases hmax : st.max_pagenum with
    | none =>
      by_cases h1 : 0 < arts.length <;>
        by_cases h2 : known = [] <;>
        by_cases h3 : st.same_article_url_threshold <
          (known.filter (fun u => u ∈ arts)).length <;>
        simp [h1, h2, h3]
    | some m =>
      by_cases h1 : 0 < arts.length <;>
        by_cases h2 : known = [] <;>
        by_cases h3 : st.same_article_url_threshold <
          (known.filter (fun u => u ∈ arts)).length <;>
        by_cases h4 : p < m <;>
        simp [h1, h2, h3, h4]
  · decide

/-! ### Claim C6 -/

/-- C6: the run fails with the configuration error exactly when the generated
archive base-URL list is empty; the failure is decided before the first
downloader call, so its outcome is independent of the collaborators; in all
other cases the run returns normally (collaborator failures are absorbed into
the classification sets). -/
theorem c6_configuration_error (o : Oracle) (st : Settings) (known : List String) (fuel : Nat) :
    ((∃ e, run_crawl o st known fuel = Except.error e) ↔ archive_page_urls st = []) ∧
    (archive_page_urls st = [] → ∀ o' : Oracle,
      run_crawl o st known fuel = run_crawl o' st known fuel) := by
  by_cases hempty : archive_page_urls st = []
  · have hbases : url_iterator_bases st =
        Except.error "no archive_page_urls: neither by_date nor by_id produced a URL" := by
      unfold url_iterator_bases
      rw [hempty]
      rfl
    constructor
    · constructor
      · intro _; exact hempty
      · intro _
        refine ⟨ "no archive_page_urls: neither by_date nor by_id produced a URL", ?_⟩
        unfold run_crawl
        rw [hbases]
    · intro _ o'
      unfold run_crawl
      rw [hbases]
  · have hbases : url_iterator_bases st = Except.ok (archive_page_urls st) := by
      unfold url_iterator_bases
      rw [if_neg]
      simp only [beq_iff_eq, List.length_eq_zero]
      exact hempty
    constructor
    · constructor
      · rintro ⟨e, he⟩
        unfold run_crawl at he
        rw [hbases] at he
        simp only [] at he
        cases hcb : crawl_bases o st fuel (initState known) (archive_page_urls st) with
        | none => rw [hcb] at he; exact Except.noConfusion he
        | some r =>
          obtain ⟨s1, tr⟩ := r
          rw [hcb] at he
          simp only [] at he
          cases hdg : download_gathered_new_urls o st fuel s1 with
          | none => rw [hdg] at he; exact Except.noConfusion he
          | some r2 =>
            obtain ⟨s2, batches, trD⟩ := r2
            rw [hdg] at he
            exact Except.noConfusion he
      · intro h; exact absurd h hempty
    · intro h; exact absurd h hempty

/-! ### Claim C2 -/

theorem process_urls_archive_fields (o : Oracle) (st : Settings) :
    ∀ (urls : List String) (s : CrawlState),
      (process_urls o st s urls).known_article_urls = s.known_article_urls ∧
      (process_urls o st s urls).good_urls = s.good_urls ∧
      (process_urls o st s urls).problematic_urls = s.problematic_urls := by
  intro urls
  induction urls with
  | nil => intro s; exact ⟨rfl, rfl, rfl⟩
  | cons u l ih =>
    intro s
    obtain ⟨b1, b2, b3⟩ := ih (process_one_url o st s u)
    obtain ⟨a1, a2, a3⟩ := process_one_url_archive_fields o st s u
    exact ⟨b1.trans a1, b2.trans a2, b3.trans a3⟩

theorem process_urls_new_urls_origin (o : Oracle) (st : Settings) :
    ∀ (urls : List String) (s : CrawlState), ∀ v ∈ (process_urls o st s urls).new_urls,
      v ∈ s.new_urls ∨ (v ∉ s.good_urls ∧ v ∉ s.problematic_urls ∧ v ∉ s.known_article_urls) := by
  intro urls
  induction urls with
  | nil => intro s v hv; exact Or.inl hv
  | cons u l ih =>
    intro s v hv
    rcases ih (process_one_url o st s u) v hv with hv1 | hv1
    · exact process_one_url_new_urls_origin o st s u v hv1
    · obtain ⟨a1, a2, a3⟩ := process_one_url_archive_fields o st s u
      rw [a1, a2, a3] at hv1
      exact Or.inr hv1

theorem process_urls_filter_classified (o : Oracle) (st : Settings) (p : String → Bool) :
    ∀ (batch : List String) (s : CrawlState),
      (∀ u ∈ batch, p u = false →
        u ∈ s.good_article_urls ∨ u ∈ s.problematic_article_urls) →
      process_urls o st s batch = process_urls o st s (batch.filter p) := by
  intro batch
  induction batch with
  | nil => intro s _; rfl
  | cons u l ih =>
    intro s h
    cases hp : p u with
    | true =>
      rw [List.filter_cons_of_pos hp]
      show process_urls o st (process_one_url o st s u) l =
        process_urls o st (process_one_url o st s u) (l.filter p)
      apply ih
      intro v hv hpv
      obtain ⟨hmono1, hmono2⟩ := process_one_url_article_mono o st s u
      rcases h v (List.mem_cons_of_mem u hv) hpv with h1 | h1
      · exact Or.inl (hmono1 v h1)
      · exact Or.inr (hmono2 v h1)
    | false =>
      rw [List.filter_cons_of_neg (by simp [hp])]
      have hcl := h u (List.mem_cons_self u l) hp
      show process_urls o st (process_one_url o st s u) l = process_urls o st s (l.filter p)
      rw [process_one_url_skip o st s u hcl]
      apply ih
      intro v hv hpv
      exact h v (List.mem_cons_of_mem u hv) hpv

theorem drain_loop_final_empty (o : Oracle) (st : Settings) :
    ∀ fuel s r, drain_loop o st fuel s = some r → r.1.new_urls = [] := by
  intro fuel
  induction fuel with
  | zero =>
    intro s r h
    rw [drain_loop] at h
    split at h
    · next he => cases h; simpa using he
    · exact Option.noConfusion h
  | succ fuel ih =>
    intro s r h
    rw [drain_loop] at h
    split at h
    · next he => cases h; simpa using he
    · simp only [Option.map_eq_some'] at h
      obtain ⟨r2, hrec, heq⟩ := h
      cases heq
      exact ih _ r2 hrec

theorem drain_loop_eq_spec (o : Oracle) (st : Settings) :
    ∀ fuel s,
      (∀ v ∈ s.new_urls, v ∉ s.good_urls ∧ v ∉ s.problematic_urls ∧ v ∉ s.known_article_urls) →
      (drain_loop o st fuel s).map (fun r => r.1) =
        (drain_loop_spec o st fuel s).map (fun r => r.1) := by
  intro fuel
  induction fuel with
  | zero =>
    intro s _
    rw [drain_loop, drain_loop_spec]
    by_cases he : s.new_urls.isEmpty <;> simp [he]
  | succ fuel ih =>
    intro s hinv
    rw [drain_loop, drain_loop_spec]
    by_cases he : s.new_urls.isEmpty
    · simp [he]
    · simp only [he, Bool.false_eq_true, if_false, Option.map_map]
      have hs2 : process_urls o st { s with new_urls := [] } s.new_urls =
          process_urls o st { s with new_urls := [] }
            (s.new_urls.filter (fun url =>
              decide (url ∉ s.good_article_urls ∧ url ∉ s.problematic_article_urls ∧
                url ∉ s.good_urls ∧ url ∉ s.problematic_urls ∧
                url ∉ s.known_article_urls))) := by
        apply process_urls_filter_classified
        intro u hu hpu
        have h5 := of_decide_eq_false hpu
        obtain ⟨hg, hp, hk⟩ := hinv u hu
        by_cases h1 : u ∈ s.good_article_urls
        · exact Or.inl h1
        · by_cases h2 : u ∈ s.problematic_article_urls
          · exact Or.inr h2
          · exact absurd ⟨h1, h2, hg, hp, hk⟩ h5
      have hinv2 : ∀ v ∈ (process_urls o st { s with new_urls := [] } s.new_urls).new_urls,
          v ∉ (process_urls o st { s with new_urls := [] } s.new_urls).good_urls ∧
          v ∉ (process_urls o st { s with new_urls := [] } s.new_urls).problematic_urls ∧
          v ∉ (process_urls o st { s with new_urls := [] } s.new_urls).known_article_urls := by
        intro v hv
        rcases process_urls_new_urls_origin o st s.new_urls { s with new_urls := [] } v hv
          with h | h
        · simp at h
        · obtain ⟨k1, k2, k3⟩ :=
            process_urls_archive_fields o st s.new_urls { s with new_urls := [] }
          rw [k1, k2, k3]
          exact h
      rw [← hs2]
      exact ih _ hinv2

/-- C2 (amended): the drain re-filters the snapshot against the five exclusion
sets only once, before the first iteration; later iterations hand the
snapshot to `process_urls` unfiltered.  This is observationally equivalent to
re-filtering on every iteration — the final state (fetches included) is the
same, because a URL the re-filter would drop is an already-classified article
URL that `process_urls` skips — but the batches handed to `process_urls`
differ (see the counterexample).  The loop does repeat until `new_urls` is
empty at the start of an iteration. -/
theorem c2_drain_refilter_equivalence :
    (∀ (o : Oracle) (st : Settings) (fuel : Nat) (s : CrawlState),
      (download_gathered_new_urls o st fuel s).map (fun r => r.1) =
        (drain_loop_spec o st fuel (recheck_new_urls s)).map (fun r => r.1)) ∧
    (∀ (o : Oracle) (st : Settings) (fuel : Nat) (s : CrawlState) r,
      download_gathered_new_urls o st fuel s = some r → r.1.new_urls = []) := by
  constructor
  · intro o st fuel s
    apply drain_loop_eq_spec
    intro v hv
    have hm := List.mem_filter.mp hv
    have h5 := of_decide_eq_true hm.2
    exact ⟨h5.2.2.1, h5.2.2.2.1, h5.2.2.2.2⟩
  · intro o st fuel s r h
    exact drain_loop_final_empty o st fuel _ r h

/-- C2 (counterexample to the claim as stated): in this drain run the second
iteration's snapshot `[u1]` is handed to `process_urls` although `u1` is
already in the article good set at the start of that iteration — the claimed
per-iteration re-filter does not happen (the spec-worded drain hands over
`[]` instead). -/
theorem c2_counterexample :
    (download_gathered_new_urls exOracleChain exSettingsPagenum 5 exStateTwoNew).map
        (fun r => (r.2.1, r.2.2.map (fun s' => (s'.new_urls, s'.good_article_urls)))) =
      some ([["u2", "u1"], ["u1"]], [(["u2", "u1"], []), (["u1"], ["u1", "u2"])]) ∧
    (drain_loop_spec exOracleChain exSettingsPagenum 5 (recheck_new_urls exStateTwoNew)).map
        (fun r => r.2) = some [["u2", "u1"], []] := by
  constructor <;> decide

/-- C2 witness: the equivalence and the final emptiness at a concrete run. -/
theorem c2_witness :
    (download_gathered_new_urls exOracleChain exSettingsPagenum 5 exStateTwoNew).map
        (fun r => r.1) =
      (drain_loop_spec exOracleChain exSettingsPagenum 5 (recheck_new_urls exStateTwoNew)).map
        (fun r => r.1) ∧
    (download_gathered_new_urls exOracleChain exSettingsPagenum 5 exStateTwoNew).map
        (fun r => r.1.new_urls) = some [] := by
  refine ⟨c2_drain_refilter_equivalence.1 exOracleChain exSettingsPagenum 5 exStateTwoNew, ?_⟩
  cases hdg : download_gathered_new_urls exOracleChain exSettingsPagenum 5 exStateTwoNew with
  | none => exact absurd hdg (by decide)
  | some r =>
    rw [Option.map_some']
    rw [c2_drain_refilter_equivalence.2 exOracleChain exSettingsPagenum 5 exStateTwoNew r hdg]

/-! ### Claim C4 -/

theorem walk_archive_pages_succ_eq (o : Oracle) (st : Settings) (fuel : Nat) (s : CrawlState)
    (base u : String) (p : Nat) :
    walk_archive_pages o st (fuel + 1) s base (some u) p =
      match o.fetch s.fetch_count u with
      | none =>
        some ({ s with
          fetched_urls := s.fetched_urls ++ [u]
          fetch_count := s.fetch_count + 1
          problematic_urls := s.problematic_urls.insert u }, [])
      | some html =>
        (walk_archive_pages o st fuel
          { s with
            fetched_urls := s.fetched_urls ++ [u]
            fetch_count := s.fetch_count + 1
            good_urls := s.good_urls.insert u }
          base
          (extract_next_page_url o st s.known_article_urls html base
            (o.article_urls_from_page html) p)
          (p + 1)).map (fun r => (r.1, o.article_urls_from_page html ++ r.2)) := by
  cases h : o.fetch s.fetch_count u <;> simp [walk_archive_pages, fetchUrl, h]

theorem extract_next_page_url_pagenum_form (o : Oracle) (st : Settings)
    (known : List String) (html base : String) (arts : List String) (p : Nat)
    (hregex : st.next_url_by_regex = false) :
    extract_next_page_url o st known html base arts p = none ∨
    extract_next_page_url o st known html base arts p = some (base ++ Nat.repr p) := by
  unfold extract_next_page_url
  rw [hregex]
  simp only [Bool.false_eq_true, if_false]
  split
  · exact Or.inr rfl
  · exact Or.inl rfl

theorem extract_next_page_url_pagenum_bound (o : Oracle) (st : Settings)
    (known : List String) (html base : String) (arts : List String) (p m : Nat)
    (hregex : st.next_url_by_regex = false) (hmax : st.max_pagenum = some m) :
    extract_next_page_url o st known html base arts p = none ∨
    (extract_next_page_url o st known html base arts p = some (base ++ Nat.repr p) ∧ p < m) := by
  unfold extract_next_page_url
  rw [hregex]
  simp only [Bool.false_eq_true, if_false]
  split
  · next hcond =>
    right
    refine ⟨rfl, ?_⟩
    rw [hmax] at hcond
    simp only [Bool.and_eq_true, decide_eq_true_eq] at hcond
    exact hcond.2
  · left; rfl

theorem walk_archive_pages_fetches_shape (o : Oracle) (st : Settings) (base : String)
    (hregex : st.next_url_by_regex = false) :
    ∀ fuel (s : CrawlState) (u : String) (p : Nat) r,
      walk_archive_pages o st fuel s base (some u) p = some r →
      ∃ k, r.1.fetched_urls =
        s.fetched_urls ++ u :: (List.range k).map (fun i => base ++ Nat.repr (p + i)) := by
  intro fuel
  induction fuel with
  | zero =>
    intro s u p r h
    rw [walk_archive_pages] at h
    exact Option.noConfusion h
  | succ fuel ih =>
    intro s u p r h
    rw [walk_archive_pages_succ_eq] at h
    cases hf : o.fetch s.fetch_count u with
    | none =>
      rw [hf] at h
      cases h
      exact ⟨0, by simp⟩
    | some html =>
      rw [hf] at h
      simp only [Option.map_eq_some'] at h
      obtain ⟨r', hrec, heq⟩ := h
      cases heq
      rcases extract_next_page_url_pagenum_form o st s.known_article_urls html base
          (o.article_urls_from_page html) p hregex with hn | hn
      · rw [hn, walk_archive_pages] at hrec
        cases hrec
        exact ⟨0, by simp⟩
      · rw [hn] at hrec
        obtain ⟨k, hk⟩ := ih _ _ _ r' hrec
        refine ⟨k + 1, ?_⟩
        rw [hk]
        simp only [List.range_succ_eq_map, List.map_cons, List.map_map]
        simp only [List.append_assoc, List.cons_append, List.singleton_append, Nat.add_zero]
        congr 2
        simp only [List.nil_append]
        congr 1
        apply List.map_congr_left
        intro i _
        simp only [Function.comp_apply]
        congr 1
        congr 1
        omega
  
theorem pagenum_fetch_list_nodup (base : String) (p k : Nat) :
    (base :: (List.range k).map (fun i => base ++ Nat.repr (p + i))).Nodup := by
  rw [List.nodup_cons]
  constructor
  · intro hmem
    simp only [List.mem_map, List.mem_range] at hmem
    obtain ⟨i, _, hi⟩ := hmem
    exact base_ne_append_repr base (p + i) hi.symm
  · refine List.Nodup.map ?_ (List.nodup_range k)
    intro a b hab
    have h2 : p + a = p + b := append_repr_injective base hab
    omega

theorem walk_archive_pages_terminates (o : Oracle) (st : Settings) (m : Nat) (base : String)
    (hregex : st.next_url_by_regex = false) (hmax : st.max_pagenum = some m) :
    ∀ fuel (p : Nat) (s : CrawlState) (u : String), m - p < fuel →
      (walk_archive_pages o st fuel s base (some u) p).isSome := by
  intro fuel
  induction fuel with
  | zero => intro p s u h; omega
  | succ fuel ih =>
    intro p s u h
    rw [walk_archive_pages_succ_eq]
    cases hf : o.fetch s.fetch_count u with
    | none => simp
    | some html =>
      simp only []
      rcases extract_next_page_url_pagenum_bound o st s.known_article_urls html base
          (o.article_urls_from_page html) p m hregex hmax with hn | ⟨hn, hpm⟩
      · rw [hn, walk_archive_pages]
        simp
      · rw [hn]
        have hrec := ih (p + 1) { s with
          fetched_urls := s.fetched_urls ++ [u]
          fetch_count := s.fetch_count + 1
          good_urls := s.good_urls.insert u } (base ++ Nat.repr p) (by omega)
        cases hw : walk_archive_pages o st fuel { s with
            fetched_urls := s.fetched_urls ++ [u]
            fetch_count := s.fetch_count + 1
            good_urls := s.good_urls.insert u } base (some (base ++ Nat.repr p)) (p + 1) with
        | none => rw [hw] at hrec; exact absurd hrec (by simp)
        | some r => simp

/-- C4 (counterexample to the claim as stated): in regex mode, with a
next-page extractor that points back at page `A` and a downloader whose
second call fails, the walk fetches the page URL `A` twice — the walk can
revisit a URL it has already fetched and classified. -/
theorem c4_counterexample :
    (walk_archive_pages exOracleSelfLoop exSettingsRegex 3 (initState []) "A" (some "A") 1).map
        (fun r => r.1.fetched_urls) = some ["A", "A"] := by decide

theorem walk_archive_pages_none_successes (o : Oracle) (st : Settings) (base : String)
    (hregex : st.next_url_by_regex = false) :
    ∀ fuel (s : CrawlState) (u : String) (p : Nat),
      walk_archive_pages o st fuel s base (some u) p = none →
      (0 < fuel → ∃ i, o.fetch i u ≠ none) ∧
      (∀ j, j + 1 < fuel → ∃ i, o.fetch i (base ++ Nat.repr (p + j)) ≠ none) := by
  intro fuel
  induction fuel with
  | zero =>
    intro s u p h
    exact ⟨fun h0 => absurd h0 (by omega), fun j hj => absurd hj (by omega)⟩
  | succ fuel ih =>
    intro s u p h
    rw [walk_archive_pages_succ_eq] at h
    cases hf : o.fetch s.fetch_count u with
    | none => rw [hf] at h; exact Option.noConfusion h
    | some html =>
      rw [hf] at h
      rw [Option.map_eq_none'] at h
      rcases extract_next_page_url_pagenum_form o st s.known_article_urls html base
          (o.article_urls_from_page html) p hregex with hn | hn
      · rw [hn, walk_archive_pages] at h
        exact Option.noConfusion h
      · rw [hn] at h
        obtain ⟨h1, h2⟩ := ih _ _ _ h
        refine ⟨fun _ => ⟨s.fetch_count, by rw [hf]; exact fun hc => Option.noConfusion hc⟩, ?_⟩
        intro j hj
        cases j with
        | zero =>
          have hfuel : 0 < fuel := by omega
          simpa using h1 hfuel
        | succ j' =>
          have hj' := h2 j' (by omega)
          have harg : p + 1 + j' = p + (j' + 1) := by omega
          rw [harg] at hj'
          exact hj'

theorem walk_archive_pages_finite_site (o : Oracle) (st : Settings) (base : String)
    (G : List String)
    (hregex : st.next_url_by_regex = false)
    (hG : ∀ i u, o.fetch i u ≠ none → u ∈ G) :
    ∀ fuel (s : CrawlState) (p : Nat), G.length < fuel →
      (walk_archive_pages o st fuel s base (some base) p).isSome := by
  intro fuel s p hfuel
  cases hw : walk_archive_pages o st fuel s base (some base) p with
  | some r => simp
  | none =>
    exfalso
    obtain ⟨h1, h2⟩ := walk_archive_pages_none_successes o st base hregex fuel s base p hw
    have hbase : base ∈ G := by
      obtain ⟨i, hi⟩ := h1 (by omega)
      exact hG i base hi
    have hsub : (base :: (List.range (fuel - 1)).map
        (fun j => base ++ Nat.repr (p + j))) ⊆ G := by
      intro v hv
      rcases List.mem_cons.mp hv with rfl | hv
      · exact hbase
      · simp only [List.mem_map, List.mem_range] at hv
        obtain ⟨j, hj, rfl⟩ := hv
        obtain ⟨i, hi⟩ := h2 j (by omega)
        exact hG i _ hi
    have hnd := pagenum_fetch_list_nodup base p (fuel - 1)
    have hlen := (List.subperm_of_subset hnd hsub).length_le
    simp only [List.length_cons, List.length_map, List.length_range] at hlen
    omega

/-- C4 (amended): in pagenum mode (`next_url_by_regex` disabled) the walk for
one base URL never fetches the same page URL twice — the fetched URLs are the
base URL followed by `base ++ pageNum` for strictly increasing page numbers,
all pairwise distinct — and the walk always terminates, by a stop decision or
a fetch failure, when `max_pagenum` is set (within
`max_pagenum - min_pagenum + 1` page fetches) and on any finite site (any
downloader that only ever succeeds on a finite set `G` of URLs, within
`|G| + 1` page fetches).  In regex mode the next URL comes verbatim from the
extractor, and the walk can revisit pages and need not terminate (see the
counterexample). -/
theorem c4_pagenum_no_refetch_and_terminates :
    (∀ (o : Oracle) (st : Settings) (base : String) (fuel : Nat) (s : CrawlState) r,
      st.next_url_by_regex = false →
      walk_archive_pages o st fuel s base (some base) st.min_pagenum = some r →
      ∃ ds, r.1.fetched_urls = s.fetched_urls ++ ds ∧ ds.Nodup) ∧
    (∀ (o : Oracle) (st : Settings) (base : String) (fuel : Nat) (s : CrawlState) (m : Nat),
      st.next_url_by_regex = false → st.max_pagenum = some m →
      m - st.min_pagenum < fuel →
      (walk_archive_pages o st fuel s base (some base) st.min_pagenum).isSome) ∧
    (∀ (o : Oracle) (st : Settings) (base : String) (G : List String) (fuel : Nat)
        (s : CrawlState),
      st.next_url_by_regex = false →
      (∀ i u, o.fetch i u ≠ none → u ∈ G) →
      G.length < fuel →
      (walk_archive_pages o st fuel s base (some base) st.min_pagenum).isSome) := by
  refine ⟨?_, ?_, ?_⟩
  · intro o st base fuel s r hregex h
    obtain ⟨k, hk⟩ := walk_archive_pages_fetches_shape o st base hregex fuel s base
      st.min_pagenum r h
    exact ⟨_, hk, pagenum_fetch_list_nodup base st.min_pagenum k⟩
  · intro o st base fuel s m hregex hmax hfuel
    exact walk_archive_pages_terminates o st m base hregex hmax fuel st.min_pagenum s base hfuel
  · intro o st base G fuel s hregex hG hfuel
    exact walk_archive_pages_finite_site o st base G hregex hG fuel s st.min_pagenum hfuel

/-- C4 witness: scenario B's walk terminates and fetches pairwise distinct
page URLs. -/
theorem c4_witness :
    ((walk_archive_pages exOracleScenB exSettingsScenB 10 (initState []) "B" (some "B")
        exSettingsScenB.min_pagenum).isSome) ∧
    ((walk_archive_pages exOracleFiniteSite exSettingsPagenum 2 (initState []) "B" (some "B")
        exSettingsPagenum.min_pagenum).isSome) ∧
    (∃ r, walk_archive_pages exOracleScenB exSettingsScenB 10 (initState []) "B" (some "B")
        exSettingsScenB.min_pagenum = some r ∧
      ∃ ds, r.1.fetched_urls = (initState []).fetched_urls ++ ds ∧ ds.Nodup) := by
  refine ⟨c4_pagenum_no_refetch_and_terminates.2.1 exOracleScenB exSettingsScenB "B" 10
    (initState []) 3 rfl rfl (by decide), ?_, ?_⟩
  · refine c4_pagenum_no_refetch_and_terminates.2.2 exOracleFiniteSite exSettingsPagenum "B"
      ["B"] 2 (initState []) rfl ?_ (by decide)
    intro i u h
    by_cases hu : u = "B"
    · simp [hu]
    · exfalso
      apply h
      simp [exOracleFiniteSite, hu]
  · cases hw : walk_archive_pages exOracleScenB exSettingsScenB 10 (initState []) "B" (some "B")
        exSettingsScenB.min_pagenum with
    | none => exact absurd hw (by decide)
    | some r =>
      exact ⟨r, rfl, c4_pagenum_no_refetch_and_terminates.1 exOracleScenB exSettingsScenB "B" 10
        (initState []) r rfl hw⟩

/-! ### Claim C5 -/

theorem eq_singleton_of_nodup_mem_iff {α : Type} (l : List α) (c : α)
    (hnd : l.Nodup) (hmem : ∀ x, x ∈ l ↔ x = c) : l = [c] := by
  cases l with
  | nil => exact absurd ((hmem c).mpr rfl) (by simp)
  | cons a t =>
    have ha : a = c := (hmem a).mp (by simp)
    subst ha
    cases t with
    | nil => rfl
    | cons b t2 =>
      have hb : b = a := (hmem b).mp (by simp)
      subst hb
      simp at hnd

theorem date_mode_urls_spec :
    ∀ st : Settings, st.archive_page_urls_by_date = true →
      st.archive_page_urls_by_id = false →
      (archive_page_urls st).Nodup ∧
      (st.go_reverse_in_archive = false →
        (archive_page_urls st).Pairwise (fun a b : String => a ≤ b)) ∧
      (st.go_reverse_in_archive = true →
        (archive_page_urls st).Pairwise (fun a b : String => b ≤ a)) ∧
      (∀ x, x ∈ archive_page_urls st ↔ ∃ k,
        k < ((Date.toOrdinal st.date_until : Int) -
          (Date.toOrdinal st.date_from : Int) + 1).toNat ∧
        x = gen_archive_page_url_from_date (st.date_from.addDays k) st.archive_url_format) := by
  intro st hdate hid
  have harch : archive_page_urls st = date_archive_page_urls st := by
    unfold archive_page_urls
    rw [hid]
    simp
  rw [harch]
  unfold date_archive_page_urls
  rw [hdate]
  simp only [if_true]
  have htransLe : ∀ a b c : String, decide (a ≤ b) = true → decide (b ≤ c) = true →
      decide (a ≤ c) = true := by
    intro a b c h1 h2
    simp only [decide_eq_true_eq] at h1 h2 ⊢
    exact le_trans h1 h2
  have htotalLe : ∀ a b : String, (decide (a ≤ b) || decide (b ≤ a)) = true := by
    intro a b
    simp only [Bool.or_eq_true, decide_eq_true_eq]
    exact le_total a b
  have htransGe : ∀ a b c : String, decide (b ≤ a) = true → decide (c ≤ b) = true →
      decide (c ≤ a) = true := by
    intro a b c h1 h2
    simp only [decide_eq_true_eq] at h1 h2 ⊢
    exact le_trans h2 h1
  have htotalGe : ∀ a b : String, (decide (b ≤ a) || decide (a ≤ b)) = true := by
    intro a b
    simp only [Bool.or_eq_true, decide_eq_true_eq]
    exact le_total b a
  cases hrev : st.go_reverse_in_archive with
  | false =>
    simp only [hrev, Bool.false_eq_true, if_false]
    refine ⟨?_, ?_, ?_, ?_⟩
    · exact (List.mergeSort_perm _ _).symm.nodup (List.nodup_dedup _)
    · intro _
      exact (List.sorted_mergeSort htransLe htotalLe _).imp (fun h => of_decide_eq_true h)
    · intro h; exact h.elim
    · intro x
      simp only [List.mem_mergeSort, List.mem_dedup, List.mem_map, List.mem_range]
      constructor
      · rintro ⟨k, hk, rfl⟩
        exact ⟨k, hk, rfl⟩
      · rintro ⟨k, hk, rfl⟩
        exact ⟨k, hk, rfl⟩
  | true =>
    simp only [hrev, if_true]
    refine ⟨?_, ?_, ?_, ?_⟩
    · exact (List.mergeSort_perm _ _).symm.nodup (List.nodup_dedup _)
    · intro h; exact absurd h (by simp)
    · intro _
      exact (List.sorted_mergeSort htransGe htotalGe _).imp (fun h => of_decide_eq_true h)
    · intro x
      simp only [List.mem_mergeSort, List.mem_dedup, List.mem_map, List.mem_range]
      constructor
      · rintro ⟨k, hk, rfl⟩
        exact ⟨k, hk, rfl⟩
      · rintro ⟨k, hk, rfl⟩
        exact ⟨k, hk, rfl⟩

set_option maxRecDepth 200000

/-- C5: in date mode (with the id fallback disabled) the generated base-URL
sequence is duplicate-free, sorted ascending — descending exactly when
`go_reverse_in_archive` is set — and its members are exactly the strings
obtained by substituting the zero-padded date components of each day of
`[date_from, date_until]` into `archive_url_format`; Scenario A (template
`https://x/#year/#month` over the 31 days of January 2020) yields exactly
`["https://x/2020/01"]`. -/
theorem c5_date_mode_generation :
    (∀ st : Settings, st.archive_page_urls_by_date = true →
      st.archive_page_urls_by_id = false →
      (archive_page_urls st).Nodup ∧
      (st.go_reverse_in_archive = false →
        (archive_page_urls st).Pairwise (fun a b : String => a ≤ b)) ∧
      (st.go_reverse_in_archive = true →
        (archive_page_urls st).Pairwise (fun a b : String => b ≤ a)) ∧
      (∀ x, x ∈ archive_page_urls st ↔ ∃ k,
        k < ((Date.toOrdinal st.date_until : Int) -
          (Date.toOrdinal st.date_from : Int) + 1).toNat ∧
        x = gen_archive_page_url_from_date (st.date_from.addDays k) st.archive_url_format)) ∧
    archive_page_urls exSettingsScenA = ["https://x/2020/01"] := by
  refine ⟨date_mode_urls_spec, ?_⟩
  obtain ⟨hnd, _, _, hmem⟩ := date_mode_urls_spec exSettingsScenA rfl rfl
  apply eq_singleton_of_nodup_mem_iff _ _ hnd
  intro x
  rw [hmem x]
  have h31 : ((Date.toOrdinal exSettingsScenA.date_until : Int) -
      (Date.toOrdinal exSettingsScenA.date_from : Int) + 1).toNat = 31 := by decide
  constructor
  · rintro ⟨k, hk, rfl⟩
    rw [h31] at hk
    have hall : ∀ k' : Nat, k' < 31 →
        gen_archive_page_url_from_date (exSettingsScenA.date_from.addDays k')
          exSettingsScenA.archive_url_format = "https://x/2020/01" := by decide
    exact hall k hk
  · rintro rfl
    refine ⟨0, ?_, ?_⟩
    · rw [h31]; omega
    · decide

/-- C5 witness: the characterisation applied to the scenario A settings. -/
theorem c5_witness :
    (archive_page_urls exSettingsScenA).Nodup ∧
    ("https://x/2020/01" ∈ archive_page_urls exSettingsScenA ↔ ∃ k,
      k < ((Date.toOrdinal exSettingsScenA.date_until : Int) -
        (Date.toOrdinal exSettingsScenA.date_from : Int) + 1).toNat ∧
      "https://x/2020/01" = gen_archive_page_url_from_date
        (exSettingsScenA.date_from.addDays k) exSettingsScenA.archive_url_format) := by
  obtain ⟨h1, _, _, h4⟩ := c5_date_mode_generation.1 exSettingsScenA rfl rfl
  exact ⟨h1, h4 _⟩

/-- C3 witness: the resolver characterisation applied at a concrete page. -/
theorem c3_witness :
    extract_next_page_url exOracleScenB exSettingsScenB [] "h" "B" ["art"] 1 =
      some ("B" ++ Nat.repr 1) :=
  ((c3_pagenum_resolver.1 exOracleScenB exSettingsScenB [] "h" "B" ["art"] 1 rfl rfl).1).mpr
    ⟨by decide, Or.inl rfl, Or.inr ⟨3, rfl, by decide⟩⟩

/-- C6 witness: with both generation modes disabled the run fails identically
under two different collaborator sets. -/
theorem c6_witness :
    archive_page_urls exSettingsNoMode = [] ∧
    run_crawl exOracleLink exSettingsNoMode [] 3 = run_crawl exOracleScenB exSettingsNoMode [] 3 := by
  refine ⟨by decide, ?_⟩
  exact (c6_configuration_error exOracleLink exSettingsNoMode [] 3).2 (by decide) exOracleScenB
